import Mathlib

/-!
Verification development for the QuantLoop event-processing core.

The definitions below are a shallow embedding of the Python sources:

* `qloop/engine/metrics.py`  (the `Metrics` accumulator, `_percentile`, `to_payload`)
* `qloop/engine/core.py`     (the `Engine`: rolling windows, risk gate, order ids,
  the wall-clock-bounded replay loop)
* `qloop/cli.py`             (`_write_metrics` fingerprinting and reservoir
  sampling, `baseline_check_impl`)

Modelling conventions:

* Python `float` arithmetic is embedded as exact rational arithmetic over `ℚ`.
  Every quantity the claims compare (positions, notionals, the 5 percent NAV cap,
  latency percentiles) is produced by the same operations as in the source;
  `0.05` is embedded as `1/20`.
* Python `dict` (insertion ordered) is embedded as an association list with
  `dictGetD` / `dictSet`; `defaultdict` reads become `dictGetD _ _ default`.
* `time.perf_counter_ns()` is embedded as an oracle: a finite list of `Int`
  values consumed one per call, in exactly the call order of the source.  A real
  execution corresponds to a trace in which the loop ends because the while
  check fails; an exhausted oracle reads as 0 inside an iteration and stops the
  loop at the next while check.
* Fallible operations return `Except`: loading the fixture file, the
  `ZeroDivisionError` that `events[idx % len(events)]` raises when the event
  list is empty, and the unguarded `psutil` calls in `Metrics.set_runtime`.
* The truncated sha256 order id is embedded as the (injective) preimage string
  `seed:symbol:ts:int(signal)` itself; the development never relies on digest
  collisions, only on equality of the hashed content.
* CPython salts `hash(str)` with a per-process value (`PYTHONHASHSEED`); the
  builtin `hash` is embedded as `pyStrHash salt s`, a keyed fold over the
  characters.  The development relies only on the fact that the result depends
  on the salt.
-/

namespace QLoop

/-- Lookup with default in an insertion-ordered association list
(Python `dict.get(k, d)` / `defaultdict` read). -/
def dictGetD {α : Type} (m : List (String × α)) (k : String) (d : α) : α :=
  match m with
  | [] => d
  | (k2, v) :: t => if k2 = k then v else dictGetD t k d

/-- Update or append in an insertion-ordered association list
(Python `dict.__setitem__`: overwrite in place, or append a new key at the end). -/
def dictSet {α : Type} (m : List (String × α)) (k : String) (v : α) : List (String × α) :=
  match m with
  | [] => [(k, v)]
  | (k2, v2) :: t => if k2 = k then (k2, v) :: t else (k2, v2) :: dictSet t k v

/-- Python `int()` applied to a float: truncation toward zero. -/
def pyInt (q : ℚ) : Int := if 0 ≤ q then ⌊q⌋ else ⌈q⌉

/-- Python truthiness of an optional integer (`None` and `0` are falsy),
used by the `if first_processed_ns and last_processed_ns` guard in `Engine.run`. -/
def truthy : Option Int → Bool
  | none => false
  | some x => decide (x ≠ 0)

/-- One OHLCV fixture row (`qloop/feeds/fixtures.py`, dataclass `Bar`).
The Python field `open` is called `openPx` here because `open` is a Lean keyword. -/
structure Bar where
  ts : String
  symbol : String
  openPx : ℚ
  high : ℚ
  low : ℚ
  close : ℚ
  volume : ℚ

/-- Placeholder bar used as the default of in-range `List.getD` lookups. -/
def dummyBar : Bar := { ts := "", symbol := "", openPx := 0, high := 0, low := 0, close := 0, volume := 0 }

/-- `EngineConfig` from `qloop/engine/core.py` (the `fixtures` path stays outside
the model: the loaded event list is passed to `Engine.run` directly). -/
structure EngineConfig where
  seed : Int
  duration_s : Nat
  max_queue : Nat
  burst_start_s : Nat
  burst_len_s : Nat
  burst_multiplier : Nat

/-- The `Metrics` dataclass of `qloop/engine/metrics.py`.  Timing samples are
nanosecond integers; the queue-depth series stores `(elapsed seconds, depth)`. -/
structure Metrics where
  decision_ns : List Int
  e2e_ns : List Int
  drops_total : Nat
  queue_depth_max : Nat
  exposure_blocks_total : Nat
  exposure_block_reasons : List (String × Nat)
  decision_ns_by_sym : List (String × List Int)
  e2e_ns_by_sym : List (String × List Int)
  processed_by_sym : List (String × Nat)
  trades_by_sym : List (String × Nat)
  exposure_blocks_by_sym : List (String × Nat)
  last_reason_by_sym : List (String × String)
  processed : Nat
  cpu_percent : ℚ
  rss_mb : ℚ
  elapsed_s : ℚ
  queue_depth_series : List (ℚ × Nat)
  burst_window : List (String × ℚ)
  idempotency_violations : Nat

/-- Field defaults of the `Metrics` dataclass. -/
def Metrics.init : Metrics :=
  { decision_ns := [], e2e_ns := [], drops_total := 0, queue_depth_max := 0,
    exposure_blocks_total := 0, exposure_block_reasons := [],
    decision_ns_by_sym := [], e2e_ns_by_sym := [], processed_by_sym := [],
    trades_by_sym := [], exposure_blocks_by_sym := [], last_reason_by_sym := [],
    processed := 0, cpu_percent := 0, rss_mb := 0, elapsed_s := 0,
    queue_depth_series := [], burst_window := [], idempotency_violations := 0 }

/-- `Metrics.sample`: record a timing sample, and per-symbol data when the symbol
is provided and truthy (a non-empty string). -/
def Metrics.sample (m : Metrics) (decision_ns e2e_ns : Int) (symbol : Option String) : Metrics :=
  let m2 := { m with decision_ns := m.decision_ns ++ [decision_ns],
                     e2e_ns := m.e2e_ns ++ [e2e_ns] }
  match symbol with
  | none => m2
  | some s =>
    if s = "" then m2
    else
      { m2 with
        decision_ns_by_sym := dictSet m2.decision_ns_by_sym s (dictGetD m2.decision_ns_by_sym s [] ++ [decision_ns]),
        e2e_ns_by_sym := dictSet m2.e2e_ns_by_sym s (dictGetD m2.e2e_ns_by_sym s [] ++ [e2e_ns]),
        processed_by_sym := dictSet m2.processed_by_sym s (dictGetD m2.processed_by_sym s 0 + 1) }

/-- `Metrics.drop`. -/
def Metrics.drop (m : Metrics) : Metrics :=
  { m with drops_total := m.drops_total + 1 }

/-- `Metrics.exposure_block`: every call increments the global total and the
per-reason counter; the per-symbol counters are touched only when a truthy
symbol is passed. -/
def Metrics.exposure_block (m : Metrics) (reason : String) (symbol : Option String) : Metrics :=
  let m2 := { m with
    exposure_blocks_total := m.exposure_blocks_total + 1,
    exposure_block_reasons := dictSet m.exposure_block_reasons reason (dictGetD m.exposure_block_reasons reason 0 + 1) }
  match symbol with
  | none => m2
  | some s =>
    if s = "" then m2
    else
      { m2 with
        exposure_blocks_by_sym := dictSet m2.exposure_blocks_by_sym s (dictGetD m2.exposure_blocks_by_sym s 0 + 1),
        last_reason_by_sym := dictSet m2.last_reason_by_sym s reason }

/-- `Metrics.set_runtime`: stores `processed` and `queue_depth_max`, then samples
process CPU percent and resident memory through `psutil` with no exception
handler around the calls.  The sample outcome is an input: `some (cpu, rss)`
models successful sampling, `none` models a raising `psutil` call, which
propagates (`Except.error`). -/
def Metrics.set_runtime (m : Metrics) (processed queue_depth_max : Nat)
    (res : Option (ℚ × ℚ)) : Except Unit Metrics :=
  let m2 := { m with processed := processed, queue_depth_max := queue_depth_max }
  match res with
  | none => Except.error ()
  | some cr => Except.ok { m2 with cpu_percent := cr.1, rss_mb := cr.2 }

/-- `Metrics.record_queue_depth`: append and evict the oldest entry past the cap. -/
def Metrics.record_queue_depth (m : Metrics) (t_s : ℚ) (depth : Nat) (cap : Nat) : Metrics :=
  let series := m.queue_depth_series ++ [(t_s, depth)]
  let series2 := if cap < series.length then series.drop 1 else series
  { m with queue_depth_series := series2 }

/-- `Metrics.set_elapsed`. -/
def Metrics.set_elapsed (m : Metrics) (elapsed_s : ℚ) : Metrics :=
  { m with elapsed_s := elapsed_s }

/-- `_percentile` from `qloop/engine/metrics.py`: linear interpolation between
floor and ceil ranks over an already sorted sequence; 0 for empty input. -/
def _percentile (values : List ℚ) (pct : ℚ) : ℚ :=
  if values = [] then 0
  else
    let k : ℚ := ((values.length : ℚ) - 1) * pct
    let f : Int := pyInt k
    let c : Int := min (f + 1) ((values.length : Int) - 1)
    if f = c then values.getD (pyInt k).toNat 0
    else
      let d0 := values.getD f.toNat 0 * ((c : ℚ) - k)
      let d1 := values.getD c.toNat 0 * (k - (f : ℚ))
      d0 + d1

/-- Python `max` over a non-empty list of integers (callers guard emptiness). -/
def listMax (l : List Int) : Int :=
  match l with
  | [] => 0
  | h :: t => t.foldl max h

/-- One entry of the `per_symbol` mapping of the payload. -/
structure SymbolSummary where
  processed : Nat
  latency_p95 : ℚ
  trades : Nat
  exposure_blocks : Nat
  last_reason : String

/-- The payload dictionary built by `Metrics.to_payload`, restricted to the
fields the specification claims talk about.  The latency histogram and the
rounded queue-depth series are not modelled (no claim mentions them). -/
structure Payload where
  latency_p50 : ℚ
  latency_p95 : ℚ
  latency_p99 : ℚ
  latency_max : ℚ
  e2e_p95 : ℚ
  jitter : ℚ
  eps : ℚ
  drops : Nat
  idempotency_violations : Nat
  error_rate : ℚ
  exposure_blocks : Nat
  exposure_block_reasons : List (String × Nat)
  cpu_percent : ℚ
  rss_mb : ℚ
  queue_depth_max : Nat
  processed : Nat
  elapsed_s : ℚ
  per_symbol : List (String × SymbolSummary)

/-- `Metrics.to_payload`.  Python `sorted` (stable ascending sort) is embedded
as `List.insertionSort`; note that the reliability section writes the literal
`0` for `idempotency_violations`, exactly as `metrics.py` line 137 does, and
never reads the accumulator field. -/
def Metrics.to_payload (m : Metrics) : Payload :=
  let dec_sorted := List.insertionSort (· ≤ ·) m.decision_ns
  let e2e_sorted := List.insertionSort (· ≤ ·) m.e2e_ns
  let decQ := dec_sorted.map (fun v : Int => (v : ℚ))
  let e2eQ := e2e_sorted.map (fun v : Int => (v : ℚ))
  let p50 := _percentile decQ (50/100) / 1000000
  let p95 := _percentile decQ (95/100) / 1000000
  let p99 := _percentile decQ (99/100) / 1000000
  let e2e_p95 := _percentile e2eQ (95/100) / 1000000
  let jitter := if 0 < p50 then p99 / p50 else 0
  let eps := (m.processed : ℚ) / max m.elapsed_s (1/1000000000)
  let per_symbol := m.decision_ns_by_sym.map (fun sl =>
    let s_sorted := List.insertionSort (· ≤ ·) sl.2
    let p95_sym := if s_sorted = [] then 0 else _percentile (s_sorted.map (fun v : Int => (v : ℚ))) (95/100) / 1000000
    (sl.1,
      ({ processed := dictGetD m.processed_by_sym sl.1 0,
         latency_p95 := p95_sym,
         trades := dictGetD m.trades_by_sym sl.1 0,
         exposure_blocks := dictGetD m.exposure_blocks_by_sym sl.1 0,
         last_reason := dictGetD m.last_reason_by_sym sl.1 "-" } : SymbolSummary)))
  { latency_p50 := p50, latency_p95 := p95, latency_p99 := p99,
    latency_max := if dec_sorted = [] then 0 else (listMax dec_sorted : ℚ) / 1000000,
    e2e_p95 := e2e_p95, jitter := jitter, eps := eps,
    drops := m.drops_total,
    idempotency_violations := 0,
    error_rate := 0,
    exposure_blocks := m.exposure_blocks_total,
    exposure_block_reasons := m.exposure_block_reasons,
    cpu_percent := m.cpu_percent, rss_mb := m.rss_mb,
    queue_depth_max := m.queue_depth_max,
    processed := m.processed, elapsed_s := m.elapsed_s,
    per_symbol := per_symbol }

/-- NAV constant of the Engine (`self.nav = 1_000_000.0`). -/
def Engine.nav : ℚ := 1000000

/-- Per-asset cap fraction (`self.per_asset_cap = 0.05`), embedded exactly. -/
def Engine.per_asset_cap : ℚ := 1/20

/-- The ephemeral decision record produced on the decision path of one processed
event (the DecisionRecord of the specification).  `wlen` is the window length
after the rolling update, `ma` the moving average returned by it, `dup` the
idempotency-tracker verdict; none of these fields feed back into the engine
state, they only record what the source computed. -/
structure DecisionRecord where
  symbol : String
  ts : String
  close : ℚ
  ma : ℚ
  wlen : Nat
  diff : ℚ
  signal : ℚ
  notional : ℚ
  ok : Bool
  reason : String
  oid : String
  dup : Bool

/-- The clock-independent part of the Engine state: per-symbol rolling windows
and running sums, per-symbol positions, the idempotency tracker, plus the
(ghost) ordered trace of decision records. -/
structure CoreState where
  windows : List (String × List ℚ)
  sums : List (String × ℚ)
  positions : List (String × ℚ)
  seen_order_ids : List String
  decisions : List DecisionRecord

/-- Initial core state: empty `defaultdict`s and an empty idempotency set. -/
def CoreState.init : CoreState :=
  { windows := [], sums := [], positions := [], seen_order_ids := [], decisions := [] }

/-- Engine state: core plus the metrics accumulator. -/
structure EngState where
  core : CoreState
  metrics : Metrics

/-- `Engine._update_roll`: bounded (capacity 10) deque append with running sum;
returns the new windows, the new sums, and the moving average. -/
def _update_roll (windows : List (String × List ℚ)) (sums : List (String × ℚ))
    (sym : String) (px : ℚ) : List (String × List ℚ) × List (String × ℚ) × ℚ :=
  let w := dictGetD windows sym []
  let s := dictGetD sums sym 0
  let w2 := if w.length = 10 then w.drop 1 else w
  let s2 := if w.length = 10 then s - w.headD 0 else s
  let w3 := w2 ++ [px]
  let s3 := s2 + px
  let ma := s3 / (w3.length : ℚ)
  (dictSet windows sym w3, dictSet sums sym s3, ma)

/-- `Engine._risk_gate`: pure check of the per-asset exposure cap against the
current position state; never mutates anything. -/
def _risk_gate (positions : List (String × ℚ)) (sym : String) (notional : ℚ) : Bool × String :=
  let cap := Engine.nav * Engine.per_asset_cap
  if cap < |dictGetD positions sym 0 + notional| then (false, "EXPOSURE_CAP")
  else (true, "OK")

/-- Deterministic order id: the source hashes `seed:symbol:ts:int(signal)` with
sha256 and truncates to 16 hex chars; the digest is embedded as the preimage
string itself (injective stand-in, see the module comment). -/
def order_id (seed : Int) (sym ts : String) (signal : ℚ) : String :=
  toString seed ++ ":" ++ sym ++ ":" ++ ts ++ ":" ++ toString (pyInt signal)

/-- The pure decision computation for one event against a core state: rolling
update, cold-start suppressed mean-reversion signal, fixed notional, risk gate,
order id and duplicate verdict — lines 96 to 117 of `core.py`. -/
def decideEvent (seed : Int) (core : CoreState) (evt : Bar) : DecisionRecord :=
  let r := _update_roll core.windows core.sums evt.symbol evt.close
  let ma := r.2.2
  let wlen := (dictGetD r.1 evt.symbol []).length
  let diff := if 5 ≤ wlen then evt.close - ma else 0
  let signal : ℚ := if 0 < diff then -1 else if diff < 0 then 1 else 0
  let notional := 1000 * signal
  let gate := _risk_gate core.positions evt.symbol notional
  let oid := order_id seed evt.symbol evt.ts signal
  { symbol := evt.symbol, ts := evt.ts, close := evt.close, ma := ma, wlen := wlen,
    diff := diff, signal := signal, notional := notional,
    ok := gate.1, reason := gate.2, oid := oid,
    dup := core.seen_order_ids.contains oid }

/-- Core-state transition of one processed event: window/sum update always;
position update and idempotency-set growth exactly as in the source (position
only moves on acceptance; a duplicate id is not re-added). -/
def coreStep (seed : Int) (core : CoreState) (evt : Bar) : CoreState :=
  let d := decideEvent seed core evt
  let r := _update_roll core.windows core.sums evt.symbol evt.close
  { windows := r.1, sums := r.2.1,
    positions :=
      if d.ok then dictSet core.positions evt.symbol (dictGetD core.positions evt.symbol 0 + d.notional)
      else core.positions,
    seen_order_ids := if d.dup then core.seen_order_ids else core.seen_order_ids ++ [d.oid],
    decisions := core.decisions ++ [d] }

/-- Metrics transition of one processed event, in source order: idempotency
count, then either the trade counter (acceptance, non-zero signal) or the two
`exposure_block` calls of lines 119 and 121, then the timing sample. -/
def metricsStep (m : Metrics) (d : DecisionRecord) (t0 t1 : Int) : Metrics :=
  let m2 := if d.dup then { m with idempotency_violations := m.idempotency_violations + 1 } else m
  let m3 :=
    if d.ok then
      if d.signal = 0 then m2
      else { m2 with trades_by_sym := dictSet m2.trades_by_sym d.symbol (dictGetD m2.trades_by_sym d.symbol 0 + 1) }
    else (m2.exposure_block d.reason none).exposure_block d.reason (some d.symbol)
  m3.sample (t1 - t0) (t1 - t0) (some d.symbol)

/-- One processed (non-dropped) event: lines 96 to 132 of `core.py`.  `t0` and
`t1` are the two `perf_counter_ns` readings around the decision path. -/
def processEvent (seed : Int) (st : EngState) (evt : Bar) (t0 t1 : Int) : EngState :=
  { core := coreStep seed st.core evt,
    metrics := metricsStep st.metrics (decideEvent seed st.core evt) t0 t1 }

/-- The decision path folded over a sequence of processed events, starting from
the initial core state. -/
def coreFold (seed : Int) (bars : List Bar) : CoreState :=
  bars.foldl (coreStep seed) CoreState.init

/-- Hard failures of `Engine.run`: an unreadable fixture source (raised by
`load_minute_bars` before the loop), the `ZeroDivisionError` of
`events[idx % len(events)]` on an empty event list, and an unguarded `psutil`
failure inside `Metrics.set_runtime` at the end of the run. -/
inductive RunErr where
  | unreadableFixture
  | zeroDivision
  | resourceSample
deriving DecidableEq

/-- Loop-local state of `Engine.run`. -/
structure RunState where
  eng : EngState
  idx : Nat
  qdepth : Nat
  processed : Nat
  first_processed_ns : Option Int
  last_processed_ns : Option Int
  next_sample_ns : Int

/-- Read the next clock value from the oracle (0 once exhausted; a real trace
never reads past its end, see the module comment). -/
def takeClock : List Int → Int × List Int
  | [] => (0, [])
  | t :: rest => (t, rest)

/-- One iteration of the inner `for _ in range(multiplier)` body, lines 86 to
144 of `core.py`: cyclic event fetch (raising on an empty list, as Python
modulo by zero does), backpressure drop, or the full decision path with its
two timing reads, the processed bookkeeping, queue-depth decrement and the
50 ms queue-depth sampling. -/
def dispatch (cfg : EngineConfig) (events : List Bar) (start : Int) (rs : RunState)
    (clock : List Int) : Except RunErr (RunState × List Int) :=
  if events.length = 0 then Except.error RunErr.zeroDivision
  else
    let evt := events.getD (rs.idx % events.length) dummyBar
    let rs1 := { rs with idx := rs.idx + 1 }
    if cfg.max_queue ≤ rs1.qdepth then
      Except.ok ({ rs1 with eng := { rs1.eng with metrics := rs1.eng.metrics.drop } }, clock)
    else
      let rs2 := { rs1 with qdepth := rs1.qdepth + 1 }
      let p0 := takeClock clock
      let p1 := takeClock p0.2
      let rs3 := { rs2 with eng := processEvent cfg.seed rs2.eng evt p0.1 p1.1 }
      let rs4 := { rs3 with
        processed := rs3.processed + 1,
        first_processed_ns := match rs3.first_processed_ns with
          | none => some p1.1
          | some f => some f,
        last_processed_ns := some p1.1,
        qdepth := rs3.qdepth - 1 }
      let pn := takeClock p1.2
      let rs5 := { rs4 with
        eng := { rs4.eng with metrics :=
          if rs4.next_sample_ns ≤ pn.1 then
            rs4.eng.metrics.record_queue_depth (((pn.1 - start : Int) : ℚ) / 1000000000) rs4.qdepth 200
          else rs4.eng.metrics },
        next_sample_ns :=
          if rs4.next_sample_ns ≤ pn.1 then rs4.next_sample_ns + 50000000
          else rs4.next_sample_ns }
      Except.ok (rs5, pn.2)

/-- The inner loop: `multiplier` consecutive dispatches. -/
def dispatchN (cfg : EngineConfig) (events : List Bar) (start : Int) :
    Nat → RunState → List Int → Except RunErr (RunState × List Int)
  | 0, rs, clock => Except.ok (rs, clock)
  | m + 1, rs, clock =>
    match dispatch cfg events start rs clock with
    | Except.error e => Except.error e
    | Except.ok rc => dispatchN cfg events start m rc.1 rc.2

/-- The burst-window multiplier computation at the top of each while iteration
(`core.py` lines 81 to 84), with the short-circuit `and` of the source: the
second clock reading happens only when the first comparison holds.  The float
division `(t - start) / 1e9` is embedded as exact division in `ℚ`. -/
def burstMult (cfg : EngineConfig) (start : Int) (clock : List Int) : Nat × List Int :=
  let pA := takeClock clock
  if (cfg.burst_start_s : ℚ) ≤ ((pA.1 - start : Int) : ℚ) / 1000000000 then
    let pB := takeClock pA.2
    (if ((pB.1 - start : Int) : ℚ) / 1000000000 < (cfg.burst_start_s : ℚ) + (cfg.burst_len_s : ℚ)
     then cfg.burst_multiplier else 1, pB.2)
  else (1, pA.2)

/-- The outer `while time.perf_counter_ns() < end_time` loop.  Each iteration
reads the while check, then the burst-window readings, then dispatches
`multiplier` events.  `fuel` bounds the number of iterations; every iteration
consumes at least one clock value, so fuel equal to the clock length never
exhausts before the clock does. -/
def runLoop (cfg : EngineConfig) (events : List Bar) (start end_time : Int) :
    Nat → RunState → List Int → Except RunErr (RunState × List Int)
  | 0, rs, clock => Except.ok (rs, clock)
  | fuel + 1, rs, clock =>
    match clock with
    | [] => Except.ok (rs, [])
    | c1 :: rest =>
      if c1 < end_time then
        let mc := burstMult cfg start rest
        match dispatchN cfg events start mc.1 rs mc.2 with
        | Except.error e => Except.error e
        | Except.ok rc => runLoop cfg events start end_time fuel rc.1 rc.2
      else Except.ok (rs, rest)

/-- Loop-entry state of `Engine.run`: fresh engine state, the burst-window
annotation written into the metrics, and the first 50 ms sampling deadline. -/
def initRunState (cfg : EngineConfig) (start : Int) : RunState :=
  { eng := { core := CoreState.init,
             metrics := { Metrics.init with
               burst_window := [("start_s", (cfg.burst_start_s : ℚ)),
                                ("end_s", (cfg.burst_start_s : ℚ) + (cfg.burst_len_s : ℚ))] } },
    idx := 0, qdepth := 0, processed := 0,
    first_processed_ns := none, last_processed_ns := none,
    next_sample_ns := start + 50000000 }

/-- `Engine.run` (`core.py` lines 56 to 151).  Inputs beyond the configuration:
the result of reading the fixture source, the clock oracle, and the outcome of
the end-of-run `psutil` resource sample.  Returns the final loop state (whose
`eng.metrics` is the returned `Metrics` object) or the hard failure. -/
def Engine.run (cfg : EngineConfig) (fixture : Except Unit (List Bar))
    (clock : List Int) (res : Option (ℚ × ℚ)) : Except RunErr RunState :=
  match fixture with
  | Except.error _ => Except.error RunErr.unreadableFixture
  | Except.ok events =>
    let pS := takeClock clock
    let start := pS.1
    let end_time := start + (cfg.duration_s : Int) * 1000000000
    match runLoop cfg events start end_time pS.2.length (initRunState cfg start) pS.2 with
    | Except.error e => Except.error e
    | Except.ok rc =>
      let rs := rc.1
      let m1 :=
        if truthy rs.first_processed_ns && truthy rs.last_processed_ns
            && decide (rs.first_processed_ns.getD 0 ≤ rs.last_processed_ns.getD 0) then
          rs.eng.metrics.set_elapsed (((rs.last_processed_ns.getD 0 - rs.first_processed_ns.getD 0 : Int) : ℚ) / 1000000000)
        else rs.eng.metrics
      match m1.set_runtime rs.processed cfg.max_queue res with
      | Except.error _ => Except.error RunErr.resourceSample
      | Except.ok m2 => Except.ok { rs with eng := { rs.eng with metrics := m2 } }

/-- The run fingerprint built by `cli._write_metrics` line 101 and
`save_baseline_impl`: `seed:fixture_hash:code_hash`.  File hashing itself is an
external collaborator; the two short hex digests are inputs. -/
def run_fingerprint (seed : Int) (fixture_hash code_hash : String) : String :=
  toString seed ++ ":" ++ fixture_hash ++ ":" ++ code_hash

/-- The payload as written by `cli._write_metrics`: the finalize payload plus
the run-identity fields and the fingerprint written to `run_fingerprint.txt`.
The CSV dump, the report file and the reservoir-sampled raw-sample attachments
are modelled separately (`reservoir`, `per_symbol_samples`). -/
structure WrittenPayload where
  payload : Payload
  seed : Int
  fixture_hash : String
  code_hash : String
  determinism_ok : Bool
  fingerprint : String

/-- `cli._write_metrics`, restricted to the data it derives from its inputs. -/
def _write_metrics (m : Metrics) (seed : Int) (fixture_hash code_hash : String) : WrittenPayload :=
  { payload := m.to_payload, seed := seed,
    fixture_hash := fixture_hash, code_hash := code_hash,
    determinism_ok := false,
    fingerprint := run_fingerprint seed fixture_hash code_hash }

/-- Loop of the inline reservoir-sampling helper of `cli._write_metrics`:
`i` is the `enumerate` index, `res` the reservoir built so far. -/
def reservoirGo (k : Nat) (rng : Nat → Nat) : Nat → List ℚ → List ℚ → List ℚ
  | _, res, [] => res
  | i, res, x :: t =>
    reservoirGo k rng (i + 1)
      (if i < k then res ++ [x]
       else if rng i < k then res.set (rng i) x else res) t

/-- The inline reservoir-sampling helper of `cli._write_metrics`: keep the first
`k` elements, then for element `i` draw `j = rng.randrange(i + 1)` and replace
slot `j` when `j < k`.  The pseudo-random generator is embedded as the stream
`rng : Nat → Nat` of its successive `randrange(i + 1)` draws, indexed by `i`. -/
def reservoir (samples : List ℚ) (k : Nat) (rng : Nat → Nat) : List ℚ :=
  reservoirGo k rng 0 [] samples

/-- CPython `hash` on a string: SipHash keyed by the per-process interpreter
salt.  Embedded as a keyed fold over the characters; the development relies
only on the dependence of the result on the salt. -/
def pyStrHash (salt : Nat) (s : String) : Int :=
  s.data.foldl (fun h c => h * 31 + (c.toNat : Int)) (salt : Int)

/-- The generator seed of the per-symbol reservoir in `cli._write_metrics`
line 67: `_rand2.Random(seed + hash(sym))`. -/
def per_symbol_reservoir_seed (salt : Nat) (seed : Int) (sym : String) : Int :=
  seed + pyStrHash salt sym

/-- The per-symbol capped sample attachment of `cli._write_metrics` lines 62 to
78: convert the nanosecond samples of one symbol to milliseconds and reservoir
sample at most 50 of them with a generator seeded by `seed + hash(sym)`.
`rngOf` maps a generator seed to its stream of `randrange(i + 1)` draws. -/
def per_symbol_samples (salt : Nat) (seed : Int) (sym : String) (lst : List Int)
    (rngOf : Int → Nat → Nat) : List ℚ :=
  let ms := lst.map (fun d : Int => (d : ℚ) / 1000000)
  if ms = [] then []
  else reservoir ms 50 (rngOf (per_symbol_reservoir_seed salt seed sym))

/-- The data one `run_engine_once` cycle contributes to the determinism check:
the two hash fields of its written payload. -/
structure RunArtifacts where
  fixture_hash : String
  code_hash : String

/-- The summary persisted to `determinism_result.json` (the source key `pass`
is called `passed` here because `pass` reads poorly as a Lean field). -/
structure DetSummary where
  baseline : String
  fingerprints : List String
  passed : Bool

/-- `cli.baseline_check_impl`: a missing baseline file (`baseline = none`)
raises `FileNotFoundError` before any Engine run; otherwise exactly the three
cycles `runOnce 1`, `runOnce 2`, `runOnce 3` execute and `pass` is the
conjunction of the three fingerprint comparisons against the baseline.  The
second component counts the Engine+Metrics cycles executed. -/
def baseline_check_impl (baseline : Option String) (seed : Int)
    (runOnce : Nat → RunArtifacts) : Except Unit DetSummary × Nat :=
  match baseline with
  | none => (Except.error (), 0)
  | some b =>
    let payloads := [runOnce 1, runOnce 2, runOnce 3]
    let fprints := payloads.map (fun p => run_fingerprint seed p.fixture_hash p.code_hash)
    let ok := fprints.all (fun fp => fp == b)
    (Except.ok { baseline := b, fingerprints := fprints, passed := ok }, payloads.length)

/-- The pure replay stream: the core state after `n` dispatched events.  The
queue depth at every dispatch boundary is 0 (it is incremented and then
decremented around each processed event), so a dispatch drops exactly when
`max_queue = 0`; otherwise it processes event `n % len(events)`.  `runLoop`
refines this stream (theorem C2): the clock oracle only decides how many
dispatches happen, never what any dispatch does. -/
def coreAfter (cfg : EngineConfig) (events : List Bar) : Nat → CoreState
  | 0 => CoreState.init
  | n + 1 =>
    let core := coreAfter cfg events n
    if cfg.max_queue = 0 then core
    else coreStep cfg.seed core (events.getD (n % events.length) dummyBar)

/-- Initial engine state (fresh `Metrics()`, empty defaultdicts). -/
def EngState.init : EngState := { core := CoreState.init, metrics := Metrics.init }

/-- Placeholder decision record used as the default of in-range `List.getD`
lookups into decision traces. -/
def dummyDecision : DecisionRecord :=
  { symbol := "", ts := "", close := 0, ma := 0, wlen := 0, diff := 0,
    signal := 0, notional := 0, ok := true, reason := "", oid := "", dup := false }

/-- Builder for concrete fixture rows used in the concrete evaluations below. -/
def mkBar (sym ts : String) (close : ℚ) : Bar :=
  { ts := ts, symbol := sym, openPx := close, high := close, low := close, close := close, volume := 1 }

/-- One concrete bar of symbol A. -/
def barA1 : Bar := mkBar "A" "09:30" 1

/-- A configuration with seed 7, a 1 second duration and the default queue and
burst parameters of `EngineConfig`. -/
def cfgShort : EngineConfig :=
  { seed := 7, duration_s := 1, max_queue := 4096, burst_start_s := 8,
    burst_len_s := 4, burst_multiplier := 4 }

/-- Clock oracle: the first while check already sees the end time passed. -/
def clkA : List Int := [0, 2000000000]

/-- Clock oracle: exactly one event is dispatched before the end time passes. -/
def clkB : List Int := [0, 1, 2, 10, 11, 12, 2000000000]

/-- Engine state with symbol A exactly at the exposure cap (position 50000 of
cap 50000) and a full enough window that the next cheaper close yields a buy
signal, which the risk gate must block. -/
def blockedSt : EngState :=
  { core := { windows := [("A", [10, 10, 10, 10, 10])], sums := [("A", 50)],
              positions := [("A", 50000)], seen_order_ids := [], decisions := [] },
    metrics := Metrics.init }

/-- The bar that produces the blocked decision against `blockedSt`. -/
def barBlocked : Bar := mkBar "A" "09:35" 4

/-- Like `blockedSt` but with no open position, so the same bar is accepted
and counts a trade. -/
def acceptSt : EngState :=
  { core := { windows := [("A", [10, 10, 10, 10, 10])], sums := [("A", 50)],
              positions := [], seen_order_ids := [], decisions := [] },
    metrics := Metrics.init }

/-- Five bars of symbol A; the fifth close sits above the moving average. -/
def barsW : List Bar :=
  [mkBar "A" "t1" 1, mkBar "A" "t2" 2, mkBar "A" "t3" 3, mkBar "A" "t4" 4, mkBar "A" "t5" 10]

/-- 51 distinct millisecond samples, one more than the per-symbol reservoir
capacity of 50, so that one replacement draw happens. -/
def ms51 : List ℚ :=
  [0, 1, 2, 3, 4, 5, 6, 7, 8, 9, 10, 11, 12, 13, 14, 15, 16, 17, 18, 19,
   20, 21, 22, 23, 24, 25, 26, 27, 28, 29, 30, 31, 32, 33, 34, 35, 36, 37, 38, 39,
   40, 41, 42, 43, 44, 45, 46, 47, 48, 49, 50]

/-- The same 51 samples as raw nanosecond integers. -/
def ns51 : List Int :=
  [0, 1, 2, 3, 4, 5, 6, 7, 8, 9, 10, 11, 12, 13, 14, 15, 16, 17, 18, 19,
   20, 21, 22, 23, 24, 25, 26, 27, 28, 29, 30, 31, 32, 33, 34, 35, 36, 37, 38, 39,
   40, 41, 42, 43, 44, 45, 46, 47, 48, 49, 50]

/-- The state `Engine.run cfgShort` reaches when the clock oracle is exhausted
from the start: zero iterations, resource sample `(1, 2)`. -/
def wRS : RunState :=
  { eng := { core := CoreState.init,
             metrics := { Metrics.init with
               burst_window := [("start_s", 8), ("end_s", 12)],
               queue_depth_max := 4096, cpu_percent := 1, rss_mb := 2 } },
    idx := 0, qdepth := 0, processed := 0,
    first_processed_ns := none, last_processed_ns := none,
    next_sample_ns := 50000000 }

/-! ## Association-list lemmas -/

theorem dictGetD_dictSet_self {α : Type} (m : List (String × α)) (k : String) (v d : α) :
    dictGetD (dictSet m k v) k d = v := by
  induction m with
  | nil => simp [dictGetD, dictSet]
  | cons h t ih =>
    obtain ⟨k2, v2⟩ := h
    by_cases hk : k2 = k
    · simp [dictGetD, dictSet, hk]
    · simp [dictGetD, dictSet, hk, ih]

theorem dictGetD_dictSet_ne {α : Type} (m : List (String × α)) (k k2 : String) (v d : α)
    (h : k ≠ k2) : dictGetD (dictSet m k v) k2 d = dictGetD m k2 d := by
  induction m with
  | nil => simp [dictGetD, dictSet, h]
  | cons p t ih =>
    obtain ⟨k3, v3⟩ := p
    by_cases hk : k3 = k
    · subst hk
      simp [dictGetD, dictSet, h]
    · simp [dictGetD, dictSet, hk, ih]

/-! ## C9 -/

/-- C9: the claim says a failing resource sample degrades `cpu_percent` and
`rss_mb` to 0 and finalize completes; the code has no handler around the
`psutil` calls, so a failing sample propagates out of `Metrics.set_runtime`
instead. -/
theorem C9_set_runtime_raises (m : Metrics) (processed queue_depth_max : Nat) :
    m.set_runtime processed queue_depth_max none = Except.error () := rfl

/-! ## C10 -/

/-- C10: `baseline_check_impl` without a saved baseline is a reported
precondition failure that executes zero Engine runs; with a baseline it runs
exactly 3 Engine+Metrics cycles, fingerprints each as
`seed:fixtureHash:codeHash`, and passes exactly when all three fingerprints
equal the baseline. -/
theorem C10_baseline_check (seed : Int) (b : String) (runOnce : Nat → RunArtifacts) :
    baseline_check_impl none seed runOnce = (Except.error (), 0)
    ∧ (baseline_check_impl (some b) seed runOnce).2 = 3
    ∧ ∃ s, (baseline_check_impl (some b) seed runOnce).1 = Except.ok s
        ∧ s.baseline = b
        ∧ s.fingerprints =
            [run_fingerprint seed (runOnce 1).fixture_hash (runOnce 1).code_hash,
             run_fingerprint seed (runOnce 2).fixture_hash (runOnce 2).code_hash,
             run_fingerprint seed (runOnce 3).fixture_hash (runOnce 3).code_hash]
        ∧ (s.passed = true ↔
            (run_fingerprint seed (runOnce 1).fixture_hash (runOnce 1).code_hash = b
             ∧ run_fingerprint seed (runOnce 2).fixture_hash (runOnce 2).code_hash = b
             ∧ run_fingerprint seed (runOnce 3).fixture_hash (runOnce 3).code_hash = b)) := by
  refine ⟨rfl, rfl, ?_⟩
  refine ⟨_, rfl, rfl, rfl, ?_⟩
  simp [baseline_check_impl, List.all, Bool.and_eq_true, beq_iff_eq, and_assoc]

/-! ## C4 -/

/-- C4: the per-symbol reservoir generator is seeded with `seed + hash(sym)`
where `hash` is the salted process-wide string hash, so the seed is not a
function of the run seed and the symbol alone: it changes with the interpreter
salt, and the reservoir output genuinely depends on the generator draws (and
therefore on that seed) as soon as more than 50 samples exist. -/
theorem C4_salted_reservoir :
    per_symbol_reservoir_seed 0 7 "A" ≠ per_symbol_reservoir_seed 1 7 "A"
    ∧ reservoir ms51 50 (fun _ => 0) ≠ reservoir ms51 50 (fun _ => 50)
    ∧ per_symbol_samples 0 7 "A" ns51 (fun s i => (s.natAbs + i) % (i + 1))
        ≠ per_symbol_samples 1 7 "A" ns51 (fun s i => (s.natAbs + i) % (i + 1)) := by
  have e0 : per_symbol_reservoir_seed 0 7 "A" = 72 := by decide
  have e1 : per_symbol_reservoir_seed 1 7 "A" = 103 := by decide
  refine ⟨by rw [e0, e1]; decide, ?_, ?_⟩
  · intro h
    have h0 := congrArg (fun l => l.getD 0 0) h
    norm_num [ms51, reservoir, reservoirGo] at h0
  · intro h
    have h0 := congrArg (fun l => l.getD 0 0) h
    norm_num [per_symbol_samples, e0, e1, ns51, reservoir, reservoirGo] at h0
    simp at h0

/-! ## C1 -/

/-- C1: the engine does count idempotency violations — replaying the same
`(symbol, ts, signal)` bar adds exactly 1 per repeat to the accumulator — but
`Metrics.to_payload` writes the literal `0` into
`reliability.idempotency_violations` for every metrics state, so the count is
never surfaced in the finalize payload. -/
theorem C1_idempotency_payload :
    (processEvent 7 EngState.init barA1 0 1).metrics.idempotency_violations = 0
    ∧ (processEvent 7 (processEvent 7 EngState.init barA1 0 1) barA1 2 3).metrics.idempotency_violations = 1
    ∧ (processEvent 7 (processEvent 7 (processEvent 7 EngState.init barA1 0 1) barA1 2 3) barA1 4 5).metrics.idempotency_violations = 2
    ∧ ∀ m : Metrics, (Metrics.to_payload m).idempotency_violations = 0 := by
  refine ⟨?_, ?_, ?_, fun m => rfl⟩ <;>
    norm_num +decide [processEvent, metricsStep, coreStep, decideEvent, _update_roll, _risk_gate,
      order_id, pyInt, dictGetD, dictSet, Metrics.exposure_block, Metrics.sample,
      EngState.init, CoreState.init, Metrics.init, mkBar, barA1,
      Engine.nav, Engine.per_asset_cap]

/-! ## C3 -/

/-- C3: a single blocked decision appends exactly one latency sample to the
global and to the per-symbol sequence, but it increments
`exposure_blocks_total` and the per-reason counter by 2, not by 1: `Engine.run`
calls `Metrics.exposure_block` twice (`core.py` lines 119 and 121) and every
call bumps the global total and the reason counter. -/
theorem C3_double_exposure_block :
    (decideEvent 7 blockedSt.core barBlocked).ok = false
    ∧ (processEvent 7 blockedSt barBlocked 0 1).metrics.exposure_blocks_total = 2
    ∧ dictGetD (processEvent 7 blockedSt barBlocked 0 1).metrics.exposure_block_reasons "EXPOSURE_CAP" 0 = 2
    ∧ dictGetD (processEvent 7 blockedSt barBlocked 0 1).metrics.exposure_blocks_by_sym "A" 0 = 1
    ∧ (processEvent 7 blockedSt barBlocked 0 1).metrics.decision_ns.length = 1
    ∧ (dictGetD (processEvent 7 blockedSt barBlocked 0 1).metrics.decision_ns_by_sym "A" []).length = 1 := by
  refine ⟨?_, ?_, ?_, ?_, ?_, ?_⟩ <;>
    norm_num +decide [processEvent, metricsStep, coreStep, decideEvent, _update_roll, _risk_gate,
      order_id, pyInt, dictGetD, dictSet, Metrics.exposure_block, Metrics.sample,
      blockedSt, Metrics.init, mkBar, barBlocked,
      Engine.nav, Engine.per_asset_cap]

/-! ## C5 -/

theorem trades_by_sym_sample (m : Metrics) (a b : Int) (s : Option String) :
    (m.sample a b s).trades_by_sym = m.trades_by_sym := by
  unfold Metrics.sample
  match s with
  | none => rfl
  | some s2 => by_cases h : s2 = "" <;> simp [h]

theorem positions_coreStep (seed : Int) (core : CoreState) (evt : Bar) :
    (coreStep seed core evt).positions =
      (if (decideEvent seed core evt).ok
       then dictSet core.positions evt.symbol
         (dictGetD core.positions evt.symbol 0 + (decideEvent seed core evt).notional)
       else core.positions) := by
  rfl

theorem decideEvent_ok_eq (seed : Int) (core : CoreState) (evt : Bar) :
    (decideEvent seed core evt).ok
      = (_risk_gate core.positions evt.symbol (decideEvent seed core evt).notional).1 := rfl

theorem risk_gate_false_iff (positions : List (String × ℚ)) (sym : String) (notional : ℚ) :
    (_risk_gate positions sym notional).1 = false
      ↔ Engine.nav * Engine.per_asset_cap < |dictGetD positions sym 0 + notional| := by
  unfold _risk_gate
  by_cases hc : Engine.nav * Engine.per_asset_cap < |dictGetD positions sym 0 + notional| <;>
    simp [hc]

/-- C5: the risk gate of the decision path rejects exactly when the updated
absolute exposure `|position + notional|` would exceed `NAV * 0.05`; acceptance
moves the position by the notional and (for a non-zero signal) counts one trade
for the symbol; rejection leaves the position state completely unchanged, so
identical position state always produces the identical verdict (the gate is a
pure function of it). -/
theorem C5_risk_gate (seed : Int) (st : EngState) (evt : Bar) (t0 t1 : Int) :
    ((decideEvent seed st.core evt).ok = false
      ↔ Engine.nav * Engine.per_asset_cap
          < |dictGetD st.core.positions evt.symbol 0 + (decideEvent seed st.core evt).notional|)
    ∧ ((decideEvent seed st.core evt).ok = true →
        (processEvent seed st evt t0 t1).core.positions
          = dictSet st.core.positions evt.symbol
              (dictGetD st.core.positions evt.symbol 0 + (decideEvent seed st.core evt).notional))
    ∧ ((decideEvent seed st.core evt).ok = true → (decideEvent seed st.core evt).signal ≠ 0 →
        dictGetD (processEvent seed st evt t0 t1).metrics.trades_by_sym evt.symbol 0
          = dictGetD st.metrics.trades_by_sym evt.symbol 0 + 1)
    ∧ ((decideEvent seed st.core evt).ok = false →
        (processEvent seed st evt t0 t1).core.positions = st.core.positions)
    ∧ (_risk_gate st.core.positions evt.symbol (decideEvent seed st.core evt).notional
        = ((decideEvent seed st.core evt).ok, (decideEvent seed st.core evt).reason)) := by
  refine ⟨?_, ?_, ?_, ?_, ?_⟩
  · rw [decideEvent_ok_eq]
    exact risk_gate_false_iff st.core.positions evt.symbol (decideEvent seed st.core evt).notional
  · intro hok
    rw [processEvent, positions_coreStep, hok]
    simp
  · intro hok hsig
    show dictGetD (metricsStep st.metrics (decideEvent seed st.core evt) t0 t1).trades_by_sym evt.symbol 0 = _
    unfold metricsStep
    rw [trades_by_sym_sample]
    have hsym : (decideEvent seed st.core evt).symbol = evt.symbol := rfl
    by_cases hdup : (decideEvent seed st.core evt).dup <;>
      simp [hok, hsig, hdup, hsym, dictGetD_dictSet_self]
  · intro hok
    rw [processEvent, positions_coreStep, hok]
    simp
  · rfl

/-- C5 witness: against `blockedSt` the bar is rejected and the position is
untouched; against `acceptSt` (same prices, no open position) it is accepted,
the position moves by the notional and one trade is counted. -/
theorem C5_risk_gate_witness :
    ((decideEvent 7 blockedSt.core barBlocked).ok = false
      ∧ (processEvent 7 blockedSt barBlocked 0 1).core.positions = blockedSt.core.positions)
    ∧ ((decideEvent 7 acceptSt.core barBlocked).ok = true
      ∧ (decideEvent 7 acceptSt.core barBlocked).signal ≠ 0
      ∧ dictGetD (processEvent 7 acceptSt barBlocked 0 1).metrics.trades_by_sym "A" 0
          = dictGetD acceptSt.metrics.trades_by_sym "A" 0 + 1) := by
  have hrej : (decideEvent 7 blockedSt.core barBlocked).ok = false := by
    norm_num +decide [decideEvent, _update_roll, _risk_gate, order_id, pyInt,
      dictGetD, dictSet, blockedSt, mkBar, barBlocked, Engine.nav, Engine.per_asset_cap]
  have hacc : (decideEvent 7 acceptSt.core barBlocked).ok = true := by
    norm_num +decide [decideEvent, _update_roll, _risk_gate, order_id, pyInt,
      dictGetD, dictSet, acceptSt, mkBar, barBlocked, Engine.nav, Engine.per_asset_cap]
  have hsig : (decideEvent 7 acceptSt.core barBlocked).signal ≠ 0 := by
    norm_num +decide [decideEvent, _update_roll, _risk_gate, order_id, pyInt,
      dictGetD, dictSet, acceptSt, mkBar, barBlocked, Engine.nav, Engine.per_asset_cap]
  have hsymA : barBlocked.symbol = "A" := rfl
  refine ⟨⟨hrej, (C5_risk_gate 7 blockedSt barBlocked 0 1).2.2.2.1 hrej⟩,
          ⟨hacc, hsig, ?_⟩⟩
  have h3 := (C5_risk_gate 7 acceptSt barBlocked 0 1).2.2.1 hacc hsig
  rw [hsymA] at h3
  exact h3

/-! ## C8 -/

/-- C8 counterexample: a readable but empty fixture (a CSV with only a header)
reaches the loop body and crashes it: `events[idx % len(events)]` raises
`ZeroDivisionError` inside the loop, not a startup error, refuting the claim
that a readable fixture sequence never causes an exception inside the loop
body. -/
theorem C8_counterexample :
    Engine.run cfgShort (Except.ok []) [0, 1, 2] (some (0, 0))
      = Except.error RunErr.zeroDivision := by
  norm_num +decide [Engine.run, runLoop, burstMult, dispatchN, dispatch, takeClock, cfgShort]

theorem dispatch_isOk (cfg : EngineConfig) (events : List Bar) (start : Int)
    (rs : RunState) (clock : List Int) (h : events ≠ []) :
    ∃ out, dispatch cfg events start rs clock = Except.ok out := by
  unfold dispatch
  rw [if_neg (fun hh => h (List.length_eq_zero.mp hh))]
  dsimp only
  split
  · exact ⟨_, rfl⟩
  · exact ⟨_, rfl⟩

theorem dispatchN_isOk (cfg : EngineConfig) (events : List Bar) (start : Int)
    (m : Nat) (rs : RunState) (clock : List Int) (h : events ≠ []) :
    ∃ out, dispatchN cfg events start m rs clock = Except.ok out := by
  induction m generalizing rs clock with
  | zero => exact ⟨(rs, clock), rfl⟩
  | succ m ih =>
    obtain ⟨out, hd⟩ := dispatch_isOk cfg events start rs clock h
    unfold dispatchN
    rw [hd]
    exact ih out.1 out.2

theorem runLoop_isOk (cfg : EngineConfig) (events : List Bar) (start end_time : Int)
    (fuel : Nat) (rs : RunState) (clock : List Int) (h : events ≠ []) :
    ∃ out, runLoop cfg events start end_time fuel rs clock = Except.ok out := by
  induction fuel generalizing rs clock with
  | zero => exact ⟨(rs, clock), rfl⟩
  | succ fuel ih =>
    match clock with
    | [] => exact ⟨(rs, []), rfl⟩
    | c1 :: rest =>
      by_cases hlt : c1 < end_time
      · obtain ⟨out, hd⟩ := dispatchN_isOk cfg events start
          (burstMult cfg start rest).1 rs (burstMult cfg start rest).2 h
        simp only [runLoop]
        rw [if_pos hlt]
        rw [hd]
        exact ih out.1 out.2
      · exact ⟨(rs, rest), by simp only [runLoop]; rw [if_neg hlt]⟩

/-- C8 amended: an unreadable fixture source is the startup failure of
`Engine.run`; with a readable fixture that yields at least one event, and the
end-of-run resource sample succeeding, the run never aborts — drops, rejected
decisions and idempotency violations are merely counted and the loop runs to
completion.  (The two amendments are forced by the counterexamples: an empty
but readable fixture raises `ZeroDivisionError` inside the loop, and an
unguarded `psutil` failure aborts the run at finalize, see C9.) -/
theorem C8_amended (cfg : EngineConfig) (events : List Bar) (clock : List Int)
    (r : ℚ × ℚ) (h : events ≠ []) :
    Engine.run cfg (Except.error ()) clock (some r) = Except.error RunErr.unreadableFixture
    ∧ ∃ rs, Engine.run cfg (Except.ok events) clock (some r) = Except.ok rs := by
  refine ⟨rfl, ?_⟩
  unfold Engine.run
  obtain ⟨out, hrl⟩ := runLoop_isOk cfg events (takeClock clock).1
    ((takeClock clock).1 + (cfg.duration_s : Int) * 1000000000)
    (takeClock clock).2.length _ (takeClock clock).2 h
  dsimp only
  rw [hrl]
  exact ⟨_, rfl⟩

/-- C8 witness: a singleton fixture is non-empty; the unreadable source is a
startup error and the non-empty run completes without aborting. -/
theorem C8_amended_witness :
    ([barA1] ≠ ([] : List Bar))
    ∧ Engine.run cfgShort (Except.error ()) [] (some (1, 2)) = Except.error RunErr.unreadableFixture
    ∧ ∃ rs, Engine.run cfgShort (Except.ok [barA1]) [] (some (1, 2)) = Except.ok rs :=
  ⟨by simp,
   (C8_amended cfgShort [barA1] [] (1, 2) (by simp)).1,
   (C8_amended cfgShort [barA1] [] (1, 2) (by simp)).2⟩

/-! ## C2 -/

/-- C2 counterexample: two runs with identical seed, fixture content, duration
and queue/burst configuration but different clock observations process a
different number of events (0 versus 1), so `processed`, and with it the
decision sequence, is not determined by the configuration and fixture alone. -/
theorem C2_counterexample :
    (Engine.run cfgShort (Except.ok [barA1]) clkA (some (0, 0))).map
        (fun rs => rs.eng.metrics.processed) = Except.ok 0
    ∧ (Engine.run cfgShort (Except.ok [barA1]) clkB (some (0, 0))).map
        (fun rs => rs.eng.metrics.processed) = Except.ok 1 := by
  constructor <;>
    norm_num +decide [Engine.run, initRunState, runLoop, burstMult, dispatchN, dispatch,
      takeClock, processEvent, metricsStep, coreStep, decideEvent, _update_roll, _risk_gate,
      order_id, pyInt, dictGetD, dictSet, Metrics.sample, Metrics.exposure_block,
      Metrics.record_queue_depth, Metrics.set_elapsed, Metrics.set_runtime,
      Metrics.init, CoreState.init, cfgShort, clkA, clkB, barA1, mkBar, truthy,
      Engine.nav, Engine.per_asset_cap, Except.map]

theorem coreAfter_succ (cfg : EngineConfig) (events : List Bar) (n : Nat) :
    coreAfter cfg events (n + 1)
      = (if cfg.max_queue = 0 then coreAfter cfg events n
         else coreStep cfg.seed (coreAfter cfg events n)
           (events.getD (n % events.length) dummyBar)) := rfl

theorem coreStep_decisions (seed : Int) (core : CoreState) (evt : Bar) :
    (coreStep seed core evt).decisions = core.decisions ++ [decideEvent seed core evt] := rfl

theorem dispatch_sim (cfg : EngineConfig) (events : List Bar) (start : Int)
    (rs : RunState) (clock : List Int) (rs2 : RunState) (c2 : List Int)
    (hd : dispatch cfg events start rs clock = Except.ok (rs2, c2))
    (hq : rs.qdepth = 0) (hc : rs.eng.core = coreAfter cfg events rs.idx) :
    rs2.qdepth = 0 ∧ rs2.eng.core = coreAfter cfg events rs2.idx := by
  unfold dispatch at hd
  by_cases hlen : events.length = 0
  · rw [if_pos hlen] at hd
    simp at hd
  · rw [if_neg hlen] at hd
    dsimp only at hd
    by_cases hmax : cfg.max_queue ≤ rs.qdepth
    · rw [if_pos hmax] at hd
      have hm0 : cfg.max_queue = 0 := by omega
      simp only [Except.ok.injEq, Prod.mk.injEq] at hd
      obtain ⟨h1, _⟩ := hd
      subst h1
      refine ⟨hq, ?_⟩
      show rs.eng.core = coreAfter cfg events (rs.idx + 1)
      rw [coreAfter_succ, if_pos hm0, hc]
    · rw [if_neg hmax] at hd
      have hm0 : ¬ cfg.max_queue = 0 := by omega
      simp only [Except.ok.injEq, Prod.mk.injEq] at hd
      obtain ⟨h1, _⟩ := hd
      subst h1
      refine ⟨by show rs.qdepth + 1 - 1 = 0; omega, ?_⟩
      show (processEvent cfg.seed rs.eng (events.getD (rs.idx % events.length) dummyBar)
        (takeClock clock).1 (takeClock (takeClock clock).2).1).core = coreAfter cfg events (rs.idx + 1)
      rw [coreAfter_succ, if_neg hm0]
      show coreStep cfg.seed rs.eng.core (events.getD (rs.idx % events.length) dummyBar) = _
      rw [hc]

theorem dispatchN_sim (cfg : EngineConfig) (events : List Bar) (start : Int) :
    ∀ (m : Nat) (rs : RunState) (clock : List Int) (rs2 : RunState) (c2 : List Int),
      dispatchN cfg events start m rs clock = Except.ok (rs2, c2) →
      rs.qdepth = 0 → rs.eng.core = coreAfter cfg events rs.idx →
      rs2.qdepth = 0 ∧ rs2.eng.core = coreAfter cfg events rs2.idx := by
  intro m
  induction m with
  | zero =>
    intro rs clock rs2 c2 hd hq hc
    unfold dispatchN at hd
    simp only [Except.ok.injEq, Prod.mk.injEq] at hd
    obtain ⟨h1, _⟩ := hd
    subst h1
    exact ⟨hq, hc⟩
  | succ m ih =>
    intro rs clock rs2 c2 hd hq hc
    unfold dispatchN at hd
    rcases he : dispatch cfg events start rs clock with e | rc
    · rw [he] at hd
      simp at hd
    · rw [he] at hd
      obtain ⟨hq1, hc1⟩ := dispatch_sim cfg events start rs clock rc.1 rc.2
        (by rw [he]) hq hc
      exact ih rc.1 rc.2 rs2 c2 hd hq1 hc1

theorem runLoop_sim (cfg : EngineConfig) (events : List Bar) (start end_time : Int) :
    ∀ (fuel : Nat) (rs : RunState) (clock : List Int) (rs2 : RunState) (c2 : List Int),
      runLoop cfg events start end_time fuel rs clock = Except.ok (rs2, c2) →
      rs.qdepth = 0 → rs.eng.core = coreAfter cfg events rs.idx →
      rs2.qdepth = 0 ∧ rs2.eng.core = coreAfter cfg events rs2.idx := by
  intro fuel
  induction fuel with
  | zero =>
    intro rs clock rs2 c2 hd hq hc
    unfold runLoop at hd
    simp only [Except.ok.injEq, Prod.mk.injEq] at hd
    obtain ⟨h1, _⟩ := hd
    subst h1
    exact ⟨hq, hc⟩
  | succ fuel ih =>
    intro rs clock rs2 c2 hd hq hc
    match clock with
    | [] =>
      simp only [runLoop, Except.ok.injEq, Prod.mk.injEq] at hd
      obtain ⟨h1, _⟩ := hd
      subst h1
      exact ⟨hq, hc⟩
    | c1 :: rest =>
      simp only [runLoop] at hd
      by_cases hlt : c1 < end_time
      · rw [if_pos hlt] at hd
        rcases he : dispatchN cfg events start (burstMult cfg start rest).1 rs
            (burstMult cfg start rest).2 with e | rc
        · rw [he] at hd
          simp at hd
        · rw [he] at hd
          obtain ⟨hq1, hc1⟩ := dispatchN_sim cfg events start
            (burstMult cfg start rest).1 rs (burstMult cfg start rest).2 rc.1 rc.2 he hq hc
          exact ih rc.1 rc.2 rs2 c2 hd hq1 hc1
      · rw [if_neg hlt] at hd
        simp only [Except.ok.injEq, Prod.mk.injEq] at hd
        obtain ⟨h1, _⟩ := hd
        subst h1
        exact ⟨hq, hc⟩

theorem run_core (cfg : EngineConfig) (events : List Bar) (clock : List Int)
    (r : ℚ × ℚ) (rs : RunState)
    (h : Engine.run cfg (Except.ok events) clock (some r) = Except.ok rs) :
    rs.eng.core = coreAfter cfg events rs.idx := by
  unfold Engine.run at h
  dsimp only at h
  rcases hrl : runLoop cfg events (takeClock clock).1
      ((takeClock clock).1 + (cfg.duration_s : Int) * 1000000000)
      (takeClock clock).2.length (initRunState cfg (takeClock clock).1)
      (takeClock clock).2 with e | rc
  · rw [hrl] at h
    simp at h
  · rw [hrl] at h
    obtain ⟨_, hc⟩ := runLoop_sim cfg events (takeClock clock).1
      ((takeClock clock).1 + (cfg.duration_s : Int) * 1000000000)
      (takeClock clock).2.length (initRunState cfg (takeClock clock).1)
      (takeClock clock).2 rc.1 rc.2 (by rw [hrl]) rfl rfl
    simp only [Metrics.set_runtime] at h
    simp only [Except.ok.injEq] at h
    rw [← h]
    exact hc

theorem coreAfter_decisions_mono (cfg : EngineConfig) (events : List Bar) (n : Nat) :
    ∀ m, ∃ t, (coreAfter cfg events n).decisions ++ t
        = (coreAfter cfg events (n + m)).decisions := by
  intro m
  induction m with
  | zero => exact ⟨[], by simp⟩
  | succ m ih =>
    obtain ⟨t, ht⟩ := ih
    rw [← Nat.add_assoc, coreAfter_succ]
    by_cases hm : cfg.max_queue = 0
    · rw [if_pos hm]
      exact ⟨t, ht⟩
    · rw [if_neg hm, coreStep_decisions, ← ht, List.append_assoc]
      exact ⟨_, rfl⟩

/-- C2 amended: the run is a deterministic function of the configuration, the
fixture events, the clock observations and the resource sample — under
identical clock observations two runs agree on everything, decision sequences
and all counters included — and the fingerprint is identical across any two
runs of the same seed and hashes even with different clocks, because it is
computed from the seed and the fixture/code content hashes alone.  What
survives of the original claim without fixing the clock is the decision
stream: one run of a pair is always a prefix of the other; but the processed
count itself is clock-dependent (see the counterexample), so counts are only
guaranteed equal under identical clock observations. -/
theorem C2_amended (cfg : EngineConfig) (events : List Bar) (c1 c2 : List Int)
    (r1 r2 : ℚ × ℚ) (fh ch : String) (rs1 rs2 : RunState)
    (h1 : Engine.run cfg (Except.ok events) c1 (some r1) = Except.ok rs1)
    (h2 : Engine.run cfg (Except.ok events) c2 (some r2) = Except.ok rs2) :
    (∃ t, rs1.eng.core.decisions ++ t = rs2.eng.core.decisions
        ∨ rs2.eng.core.decisions ++ t = rs1.eng.core.decisions)
    ∧ (c1 = c2 → r1 = r2 → rs1 = rs2)
    ∧ (_write_metrics rs1.eng.metrics cfg.seed fh ch).fingerprint
        = (_write_metrics rs2.eng.metrics cfg.seed fh ch).fingerprint := by
  have hc1 := run_core cfg events c1 r1 rs1 h1
  have hc2 := run_core cfg events c2 r2 rs2 h2
  refine ⟨?_, ?_, rfl⟩
  · rcases Nat.le_total rs1.idx rs2.idx with hle | hle
    · obtain ⟨k, hk⟩ := Nat.exists_eq_add_of_le hle
      obtain ⟨t, ht⟩ := coreAfter_decisions_mono cfg events rs1.idx k
      refine ⟨t, Or.inl ?_⟩
      rw [hc1, hc2, hk]
      exact ht
    · obtain ⟨k, hk⟩ := Nat.exists_eq_add_of_le hle
      obtain ⟨t, ht⟩ := coreAfter_decisions_mono cfg events rs2.idx k
      refine ⟨t, Or.inr ?_⟩
      rw [hc1, hc2, hk]
      exact ht
  · intro hcc hrr
    subst hcc
    subst hrr
    rw [h1] at h2
    exact (Except.ok.injEq _ _).mp h2

/-- C2 witness: two concrete runs of the same configuration and fixture whose
clocks are both exhausted at once; the decision trace of one is a prefix of
the other and the fingerprints agree. -/
theorem C2_amended_witness :
    (Engine.run cfgShort (Except.ok [barA1]) [] (some (1, 2)) = Except.ok wRS)
    ∧ (∃ t, wRS.eng.core.decisions ++ t = wRS.eng.core.decisions
        ∨ wRS.eng.core.decisions ++ t = wRS.eng.core.decisions)
    ∧ wRS = wRS
    ∧ (_write_metrics wRS.eng.metrics cfgShort.seed "fh" "ch").fingerprint
        = (_write_metrics wRS.eng.metrics cfgShort.seed "fh" "ch").fingerprint := by
  have hrun : Engine.run cfgShort (Except.ok [barA1]) [] (some (1, 2)) = Except.ok wRS := by
    norm_num +decide [Engine.run, initRunState, runLoop, takeClock, Metrics.set_runtime,
      Metrics.init, CoreState.init, cfgShort, truthy, wRS]
  have h := C2_amended cfgShort [barA1] [] [] (1, 2) (1, 2) "fh" "ch" wRS wRS hrun hrun
  exact ⟨hrun, h.1, h.2.1 rfl rfl, h.2.2⟩

/-! ## C6 -/

theorem decideEvent_fields (seed : Int) (core : CoreState) (evt : Bar) :
    (decideEvent seed core evt).signal
      = (if 0 < (decideEvent seed core evt).diff then (-1 : ℚ)
         else if (decideEvent seed core evt).diff < 0 then 1 else 0)
    ∧ (decideEvent seed core evt).notional = 1000 * (decideEvent seed core evt).signal
    ∧ (decideEvent seed core evt).diff
        = (if 5 ≤ (decideEvent seed core evt).wlen
           then (decideEvent seed core evt).close - (decideEvent seed core evt).ma else 0)
    ∧ (decideEvent seed core evt).symbol = evt.symbol :=
  ⟨rfl, rfl, rfl, rfl⟩

theorem decideEvent_wlen (seed : Int) (core : CoreState) (evt : Bar) :
    (decideEvent seed core evt).wlen
      = (if (dictGetD core.windows evt.symbol []).length = 10
         then 10 else (dictGetD core.windows evt.symbol []).length + 1) := by
  unfold decideEvent _update_roll
  dsimp only
  rw [dictGetD_dictSet_self]
  by_cases h10 : (dictGetD core.windows evt.symbol []).length = 10
  · simp [h10]
  · simp [h10]

theorem coreStep_wlen_eq (seed : Int) (core : CoreState) (evt : Bar) :
    (dictGetD (coreStep seed core evt).windows evt.symbol []).length
      = (if (dictGetD core.windows evt.symbol []).length = 10
         then 10 else (dictGetD core.windows evt.symbol []).length + 1) := by
  show (dictGetD (_update_roll core.windows core.sums evt.symbol evt.close).1 evt.symbol []).length = _
  unfold _update_roll
  dsimp only
  rw [dictGetD_dictSet_self]
  by_cases h10 : (dictGetD core.windows evt.symbol []).length = 10
  · simp [h10]
  · simp [h10]

theorem coreStep_wlen_ne (seed : Int) (core : CoreState) (evt : Bar) (sym : String)
    (h : ¬ evt.symbol = sym) :
    dictGetD (coreStep seed core evt).windows sym [] = dictGetD core.windows sym [] := by
  show dictGetD (_update_roll core.windows core.sums evt.symbol evt.close).1 sym [] = _
  unfold _update_roll
  dsimp only
  exact dictGetD_dictSet_ne _ _ _ _ _ h

theorem coreStep_filter_eq (seed : Int) (core : CoreState) (evt : Bar) (sym : String)
    (h : evt.symbol = sym) :
    (coreStep seed core evt).decisions.filter (fun d => d.symbol == sym)
      = core.decisions.filter (fun d => d.symbol == sym) ++ [decideEvent seed core evt] := by
  rw [coreStep_decisions, List.filter_append]
  have hsym : (decideEvent seed core evt).symbol = evt.symbol := rfl
  simp [List.filter_cons, hsym, h]

theorem coreStep_filter_ne (seed : Int) (core : CoreState) (evt : Bar) (sym : String)
    (h : ¬ evt.symbol = sym) :
    (coreStep seed core evt).decisions.filter (fun d => d.symbol == sym)
      = core.decisions.filter (fun d => d.symbol == sym) := by
  rw [coreStep_decisions, List.filter_append]
  have hsym : (decideEvent seed core evt).symbol = evt.symbol := rfl
  simp [List.filter_cons, hsym, h]

theorem coreFold_window_inv (seed : Int) :
    ∀ (bars : List Bar) (core : CoreState),
    (∀ sym : String,
        (dictGetD core.windows sym []).length
          = min (core.decisions.filter (fun d => d.symbol == sym)).length 10
        ∧ ∀ i, i < (core.decisions.filter (fun d => d.symbol == sym)).length →
            ((core.decisions.filter (fun d => d.symbol == sym)).getD i dummyDecision).wlen
              = min (i + 1) 10) →
    ∀ sym : String,
      (dictGetD (bars.foldl (coreStep seed) core).windows sym []).length
        = min ((bars.foldl (coreStep seed) core).decisions.filter (fun d => d.symbol == sym)).length 10
      ∧ ∀ i, i < ((bars.foldl (coreStep seed) core).decisions.filter (fun d => d.symbol == sym)).length →
          (((bars.foldl (coreStep seed) core).decisions.filter (fun d => d.symbol == sym)).getD i dummyDecision).wlen
            = min (i + 1) 10 := by
  intro bars
  induction bars with
  | nil => intro core h; exact h
  | cons b t ih =>
    intro core h
    simp only [List.foldl_cons]
    apply ih
    intro sym
    by_cases hs : b.symbol = sym
    · obtain ⟨hlen, hget⟩ := h sym
      have hw := coreStep_wlen_eq seed core b
      rw [hs] at hw
      have hwd := decideEvent_wlen seed core b
      rw [hs] at hwd
      constructor
      · rw [coreStep_filter_eq seed core b sym hs, List.length_append, hw, hlen]
        simp only [List.length_singleton]
        by_cases hc : min (core.decisions.filter (fun d => d.symbol == sym)).length 10 = 10
        · rw [if_pos hc]; omega
        · rw [if_neg hc]; omega
      · intro i hi
        rw [coreStep_filter_eq seed core b sym hs] at hi ⊢
        rw [List.length_append, List.length_singleton] at hi
        by_cases hil : i < (core.decisions.filter (fun d => d.symbol == sym)).length
        · rw [List.getD_append _ _ _ _ hil]
          exact hget i hil
        · have hieq : i = (core.decisions.filter (fun d => d.symbol == sym)).length := by omega
          subst hieq
          rw [List.getD_append_right _ _ _ _ (le_refl _), Nat.sub_self]
          show (decideEvent seed core b).wlen = _
          rw [hwd, hlen]
          by_cases hc : min (core.decisions.filter (fun d => d.symbol == sym)).length 10 = 10
          · rw [if_pos hc]; omega
          · rw [if_neg hc]; omega
    · obtain ⟨hlen, hget⟩ := h sym
      rw [coreStep_filter_ne seed core b sym hs, coreStep_wlen_ne seed core b sym hs]
      exact ⟨hlen, hget⟩

theorem coreFold_records (seed : Int) :
    ∀ (bars : List Bar) (core : CoreState),
    (∀ d ∈ core.decisions,
        d.signal = (if 0 < d.diff then (-1 : ℚ) else if d.diff < 0 then 1 else 0)
        ∧ d.notional = 1000 * d.signal
        ∧ d.diff = (if 5 ≤ d.wlen then d.close - d.ma else 0)) →
    ∀ d ∈ (bars.foldl (coreStep seed) core).decisions,
        d.signal = (if 0 < d.diff then (-1 : ℚ) else if d.diff < 0 then 1 else 0)
        ∧ d.notional = 1000 * d.signal
        ∧ d.diff = (if 5 ≤ d.wlen then d.close - d.ma else 0) := by
  intro bars
  induction bars with
  | nil => intro core h; exact h
  | cons b t ih =>
    intro core h
    simp only [List.foldl_cons]
    apply ih
    intro d hd
    rw [coreStep_decisions] at hd
    rcases List.mem_append.mp hd with hold | hnew
    · exact h d hold
    · have heq : d = decideEvent seed core b := List.mem_singleton.mp hnew
      subst heq
      exact ⟨(decideEvent_fields seed core b).1, (decideEvent_fields seed core b).2.1,
             (decideEvent_fields seed core b).2.2.1⟩

/-- C6: over any processed event sequence, every decision record carries
`notional = 1000 * signal` with the mean-reversion polarity (`diff > 0` sells,
`diff < 0` buys, otherwise flat) applied to `diff = close - movingAverage`,
which is suppressed to 0 until the window holds at least 5 samples; and per
symbol the first 4 processed events always yield signal 0, because the k-th
processed event of a symbol sees a window of min(k, 10) samples. -/
theorem C6_cold_start (seed : Int) (bars : List Bar) (sym : String) :
    (∀ d ∈ (coreFold seed bars).decisions,
        d.signal = (if 0 < d.diff then (-1 : ℚ) else if d.diff < 0 then 1 else 0)
        ∧ d.notional = 1000 * d.signal
        ∧ d.diff = (if 5 ≤ d.wlen then d.close - d.ma else 0))
    ∧ (∀ i, i < ((coreFold seed bars).decisions.filter (fun d => d.symbol == sym)).length →
        i < 4 →
        (((coreFold seed bars).decisions.filter (fun d => d.symbol == sym)).getD i dummyDecision).signal = 0) := by
  unfold coreFold
  have hrec := coreFold_records seed bars CoreState.init (by intro d hd; simp [CoreState.init] at hd)
  have hinv := coreFold_window_inv seed bars CoreState.init
    (by intro s; simp [CoreState.init, dictGetD]) sym
  refine ⟨hrec, ?_⟩
  intro i hi hi4
  have hwl := hinv.2 i hi
  have hmem : ((List.foldl (coreStep seed) CoreState.init bars).decisions.filter (fun d => d.symbol == sym)).getD i dummyDecision
      ∈ (List.foldl (coreStep seed) CoreState.init bars).decisions.filter (fun d => d.symbol == sym) := by
    rw [List.getD_eq_getElem _ _ hi]
    exact List.getElem_mem hi
  have hmem2 := List.mem_of_mem_filter hmem
  obtain ⟨hsig, _, hdiff⟩ := hrec _ hmem2
  have hlt5 : ¬ 5 ≤ (((List.foldl (coreStep seed) CoreState.init bars).decisions.filter (fun d => d.symbol == sym)).getD i dummyDecision).wlen := by
    rw [hwl]; omega
  rw [hdiff, if_neg hlt5] at hsig
  simpa using hsig

/-- C6 witness: a single processed bar of symbol A is the first event of that
symbol; its decision satisfies the signal relations and its signal is 0. -/
theorem C6_cold_start_witness :
    (∃ d, d ∈ (coreFold 7 [barA1]).decisions
        ∧ d.signal = (if 0 < d.diff then (-1 : ℚ) else if d.diff < 0 then 1 else 0)
        ∧ d.notional = 1000 * d.signal
        ∧ d.diff = (if 5 ≤ d.wlen then d.close - d.ma else 0))
    ∧ 0 < ((coreFold 7 [barA1]).decisions.filter (fun d => d.symbol == "A")).length
    ∧ (((coreFold 7 [barA1]).decisions.filter (fun d => d.symbol == "A")).getD 0 dummyDecision).signal = 0 := by
  have hlen : ((coreFold 7 [barA1]).decisions.filter (fun d => d.symbol == "A")).length = 1 := by
    norm_num +decide [coreFold, coreStep, decideEvent, _update_roll, _risk_gate, order_id,
      pyInt, dictGetD, dictSet, CoreState.init, barA1, mkBar, Engine.nav, Engine.per_asset_cap,
      List.filter]
  have hdl : (coreFold 7 [barA1]).decisions.length = 1 := by
    norm_num +decide [coreFold, coreStep, decideEvent, _update_roll, _risk_gate, order_id,
      pyInt, dictGetD, dictSet, CoreState.init, barA1, mkBar, Engine.nav, Engine.per_asset_cap]
  have h := C6_cold_start 7 [barA1] "A"
  have hmem : (coreFold 7 [barA1]).decisions.getD 0 dummyDecision ∈ (coreFold 7 [barA1]).decisions := by
    rw [List.getD_eq_getElem _ _ (by omega)]
    exact List.getElem_mem (by omega)
  exact ⟨⟨_, hmem, h.1 _ hmem⟩, by omega, h.2 0 (by omega) (by omega)⟩

/-! ## C7 -/

theorem length_one_le (xs : List ℚ) (hne : xs ≠ []) : (1 : ℚ) ≤ (xs.length : ℚ) := by
  have := List.length_pos.mpr hne
  exact_mod_cast this

theorem percK_nonneg (xs : List ℚ) (hne : xs ≠ []) (p : ℚ) (hp0 : 0 ≤ p) :
    0 ≤ ((xs.length : ℚ) - 1) * p := by
  have h1 := length_one_le xs hne
  nlinarith

theorem percK_le (xs : List ℚ) (hne : xs ≠ []) (p : ℚ) (hp0 : 0 ≤ p) (hp1 : p ≤ 1) :
    ((xs.length : ℚ) - 1) * p ≤ (xs.length : ℚ) - 1 := by
  have h1 := length_one_le xs hne
  nlinarith

theorem percFloor_nonneg (xs : List ℚ) (hne : xs ≠ []) (p : ℚ) (hp0 : 0 ≤ p) :
    0 ≤ ⌊((xs.length : ℚ) - 1) * p⌋ :=
  Int.floor_nonneg.mpr (percK_nonneg xs hne p hp0)

theorem floor_length_sub_one (xs : List ℚ) :
    ⌊(xs.length : ℚ) - 1⌋ = (xs.length : Int) - 1 := by
  rw [show ((xs.length : ℚ) - 1) = (((xs.length : Int) - 1 : Int) : ℚ) by push_cast; ring,
      Int.floor_intCast]

theorem percFloor_le (xs : List ℚ) (hne : xs ≠ []) (p : ℚ) (hp0 : 0 ≤ p) (hp1 : p ≤ 1) :
    ⌊((xs.length : ℚ) - 1) * p⌋ ≤ (xs.length : Int) - 1 := by
  have h := Int.floor_le_floor (percK_le xs hne p hp0 hp1)
  rw [floor_length_sub_one xs] at h
  exact h

theorem percentile_eq_last (xs : List ℚ) (hne : xs ≠ []) (p : ℚ) (hp0 : 0 ≤ p)
    (hfe : ⌊((xs.length : ℚ) - 1) * p⌋ = (xs.length : Int) - 1) :
    _percentile xs p = xs.getD ((xs.length : Int) - 1).toNat 0 := by
  unfold _percentile
  rw [if_neg hne]
  dsimp only
  unfold pyInt
  rw [if_pos (percK_nonneg xs hne p hp0), hfe]
  rw [if_pos (by omega : ((xs.length : Int) - 1) = min ((xs.length : Int) - 1 + 1) ((xs.length : Int) - 1))]

theorem percentile_eq_interp (xs : List ℚ) (hne : xs ≠ []) (p : ℚ) (hp0 : 0 ≤ p)
    (hflt : ⌊((xs.length : ℚ) - 1) * p⌋ < (xs.length : Int) - 1) :
    _percentile xs p
      = xs.getD (⌊((xs.length : ℚ) - 1) * p⌋).toNat 0
          * ((⌊((xs.length : ℚ) - 1) * p⌋ : ℚ) + 1 - ((xs.length : ℚ) - 1) * p)
        + xs.getD (⌊((xs.length : ℚ) - 1) * p⌋ + 1).toNat 0
          * (((xs.length : ℚ) - 1) * p - (⌊((xs.length : ℚ) - 1) * p⌋ : ℚ)) := by
  unfold _percentile
  rw [if_neg hne]
  dsimp only
  unfold pyInt
  rw [if_pos (percK_nonneg xs hne p hp0)]
  rw [min_eq_left (by omega : ⌊((xs.length : ℚ) - 1) * p⌋ + 1 ≤ (xs.length : Int) - 1)]
  rw [if_neg (by omega : ¬ ⌊((xs.length : ℚ) - 1) * p⌋ = ⌊((xs.length : ℚ) - 1) * p⌋ + 1)]
  push_cast
  ring

theorem sorted_getD_mono (xs : List ℚ) (hs : xs.Sorted (· ≤ ·)) (i j : Nat)
    (hij : i ≤ j) (hj : j < xs.length) : xs.getD i 0 ≤ xs.getD j 0 := by
  rw [List.getD_eq_getElem _ _ (show i < xs.length by omega),
      List.getD_eq_getElem _ _ hj]
  rcases Nat.lt_or_ge i j with hlt | hge
  · exact List.pairwise_iff_getElem.mp hs i j _ _ hlt
  · have : i = j := by omega
    subst this
    exact le_refl _

theorem percentile_lower (xs : List ℚ) (hne : xs ≠ []) (hs : xs.Sorted (· ≤ ·))
    (p : ℚ) (hp0 : 0 ≤ p) (hp1 : p ≤ 1) :
    xs.getD (⌊((xs.length : ℚ) - 1) * p⌋).toNat 0 ≤ _percentile xs p := by
  have hfle := percFloor_le xs hne p hp0 hp1
  rcases lt_or_eq_of_le hfle with hflt | hfe
  · rw [percentile_eq_interp xs hne p hp0 hflt]
    have hf0 := percFloor_nonneg xs hne p hp0
    have hup : ((xs.length : ℚ) - 1) * p < (⌊((xs.length : ℚ) - 1) * p⌋ : ℚ) + 1 :=
      Int.lt_floor_add_one _
    have hlo : (⌊((xs.length : ℚ) - 1) * p⌋ : ℚ) ≤ ((xs.length : ℚ) - 1) * p :=
      Int.floor_le _
    have hab : xs.getD (⌊((xs.length : ℚ) - 1) * p⌋).toNat 0
        ≤ xs.getD (⌊((xs.length : ℚ) - 1) * p⌋ + 1).toNat 0 := by
      apply sorted_getD_mono xs hs _ _ (by omega)
      have hlen : 1 ≤ xs.length := List.length_pos.mpr hne
      omega
    nlinarith
  · rw [percentile_eq_last xs hne p hp0 hfe, hfe]

theorem percentile_upper (xs : List ℚ) (hne : xs ≠ []) (hs : xs.Sorted (· ≤ ·))
    (p : ℚ) (hp0 : 0 ≤ p) (hp1 : p ≤ 1) :
    _percentile xs p ≤ xs.getD (min (⌊((xs.length : ℚ) - 1) * p⌋ + 1) ((xs.length : Int) - 1)).toNat 0 := by
  have hfle := percFloor_le xs hne p hp0 hp1
  rcases lt_or_eq_of_le hfle with hflt | hfe
  · rw [percentile_eq_interp xs hne p hp0 hflt,
        min_eq_left (by omega : ⌊((xs.length : ℚ) - 1) * p⌋ + 1 ≤ (xs.length : Int) - 1)]
    have hf0 := percFloor_nonneg xs hne p hp0
    have hup : ((xs.length : ℚ) - 1) * p < (⌊((xs.length : ℚ) - 1) * p⌋ : ℚ) + 1 :=
      Int.lt_floor_add_one _
    have hlo : (⌊((xs.length : ℚ) - 1) * p⌋ : ℚ) ≤ ((xs.length : ℚ) - 1) * p :=
      Int.floor_le _
    have hab : xs.getD (⌊((xs.length : ℚ) - 1) * p⌋).toNat 0
        ≤ xs.getD (⌊((xs.length : ℚ) - 1) * p⌋ + 1).toNat 0 := by
      apply sorted_getD_mono xs hs _ _ (by omega)
      have hlen : 1 ≤ xs.length := List.length_pos.mpr hne
      omega
    nlinarith
  · rw [percentile_eq_last xs hne p hp0 hfe, hfe,
        min_eq_right (by omega : (xs.length : Int) - 1 ≤ (xs.length : Int) - 1 + 1)]

theorem percentile_mono (xs : List ℚ) (hne : xs ≠ []) (hs : xs.Sorted (· ≤ ·))
    (p q : ℚ) (hp0 : 0 ≤ p) (hpq : p ≤ q) (hq1 : q ≤ 1) :
    _percentile xs p ≤ _percentile xs q := by
  have hp1 : p ≤ 1 := le_trans hpq hq1
  have hq0 : 0 ≤ q := le_trans hp0 hpq
  have hkpq : ((xs.length : ℚ) - 1) * p ≤ ((xs.length : ℚ) - 1) * q := by
    have h1 := length_one_le xs hne
    nlinarith
  have hfpq : ⌊((xs.length : ℚ) - 1) * p⌋ ≤ ⌊((xs.length : ℚ) - 1) * q⌋ :=
    Int.floor_le_floor hkpq
  rcases lt_or_eq_of_le hfpq with hflt | hfeq
  · calc _percentile xs p
        ≤ xs.getD (min (⌊((xs.length : ℚ) - 1) * p⌋ + 1) ((xs.length : Int) - 1)).toNat 0 :=
          percentile_upper xs hne hs p hp0 hp1
      _ ≤ xs.getD (⌊((xs.length : ℚ) - 1) * q⌋).toNat 0 := by
          apply sorted_getD_mono xs hs
          · have hq := percFloor_le xs hne q hq0 hq1
            have hp := percFloor_nonneg xs hne p hp0
            omega
          · have hq := percFloor_le xs hne q hq0 hq1
            have hlen : 1 ≤ xs.length := List.length_pos.mpr hne
            omega
      _ ≤ _percentile xs q := percentile_lower xs hne hs q hq0 hq1
  · have hfle := percFloor_le xs hne q hq0 hq1
    rcases lt_or_eq_of_le hfle with hflt2 | hfe2
    · rw [percentile_eq_interp xs hne p hp0 (by omega), percentile_eq_interp xs hne q hq0 hflt2,
          hfeq]
      have hab : xs.getD (⌊((xs.length : ℚ) - 1) * q⌋).toNat 0
          ≤ xs.getD (⌊((xs.length : ℚ) - 1) * q⌋ + 1).toNat 0 := by
        apply sorted_getD_mono xs hs
        · have := percFloor_nonneg xs hne q hq0
          omega
        · have hlen : 1 ≤ xs.length := List.length_pos.mpr hne
          omega
      nlinarith
    · rw [percentile_eq_last xs hne p hp0 (by omega), percentile_eq_last xs hne q hq0 hfe2]

theorem percentile_zero_eq (xs : List ℚ) (hne : xs ≠ []) :
    _percentile xs 0 = xs.getD 0 0 := by
  have hlen : 1 ≤ xs.length := List.length_pos.mpr hne
  by_cases h1 : xs.length = 1
  · have hfe : ⌊((xs.length : ℚ) - 1) * 0⌋ = (xs.length : Int) - 1 := by
      rw [mul_zero, Int.floor_zero, h1]
      norm_num
    rw [percentile_eq_last xs hne 0 le_rfl hfe, h1]
    norm_num
  · have hflt : ⌊((xs.length : ℚ) - 1) * 0⌋ < (xs.length : Int) - 1 := by
      rw [mul_zero, Int.floor_zero]
      omega
    rw [percentile_eq_interp xs hne 0 le_rfl hflt]
    rw [mul_zero, Int.floor_zero]
    norm_num

theorem percentile_one_eq (xs : List ℚ) (hne : xs ≠ []) :
    _percentile xs 1 = xs.getD ((xs.length : Int) - 1).toNat 0 := by
  apply percentile_eq_last xs hne 1 (by norm_num)
  rw [mul_one]
  exact floor_length_sub_one xs

theorem sorted_map_ratCast (l : List Int) :
    ((List.insertionSort (· ≤ ·) l).map (fun v : Int => (v : ℚ))).Sorted (· ≤ ·) := by
  have hs := List.sorted_insertionSort (· ≤ ·) l
  apply List.Pairwise.map (fun v : Int => (v : ℚ)) (fun a b hab => ?_) hs
  show ((a : ℚ)) ≤ ((b : ℚ))
  exact_mod_cast hab

/-- C7: `_percentile` returns 0 on the empty sequence for every `p`; on a
non-empty sorted sequence, `p = 0` yields the minimum and `p = 1` the maximum;
`_percentile` is monotone in `p` over a sorted sequence, and consequently the
reported `latency.decision_ms` percentiles of every finalize payload satisfy
`p50 ≤ p95 ≤ p99`. -/
theorem C7_percentile (xs : List ℚ) (hne : xs ≠ []) (hs : xs.Sorted (· ≤ ·)) (m : Metrics) :
    (∀ q : ℚ, _percentile [] q = 0)
    ∧ (_percentile xs 0 ∈ xs ∧ ∀ y ∈ xs, _percentile xs 0 ≤ y)
    ∧ (_percentile xs 1 ∈ xs ∧ ∀ y ∈ xs, y ≤ _percentile xs 1)
    ∧ (∀ p q : ℚ, 0 ≤ p → p ≤ q → q ≤ 1 → _percentile xs p ≤ _percentile xs q)
    ∧ (m.to_payload.latency_p50 ≤ m.to_payload.latency_p95
       ∧ m.to_payload.latency_p95 ≤ m.to_payload.latency_p99) := by
  have hlen : 1 ≤ xs.length := List.length_pos.mpr hne
  refine ⟨fun q => rfl, ⟨?_, ?_⟩, ⟨?_, ?_⟩, percentile_mono xs hne hs, ?_⟩
  · rw [percentile_zero_eq xs hne, List.getD_eq_getElem _ _ (by omega)]
    exact List.getElem_mem _
  · intro y hy
    rw [percentile_zero_eq xs hne]
    obtain ⟨j, hj, rfl⟩ := List.mem_iff_getElem.mp hy
    rw [← List.getD_eq_getElem xs 0 hj]
    exact sorted_getD_mono xs hs 0 j (by omega) hj
  · rw [percentile_one_eq xs hne, List.getD_eq_getElem _ _ (by omega)]
    exact List.getElem_mem _
  · intro y hy
    rw [percentile_one_eq xs hne]
    obtain ⟨j, hj, rfl⟩ := List.mem_iff_getElem.mp hy
    rw [← List.getD_eq_getElem xs 0 hj]
    exact sorted_getD_mono xs hs j ((xs.length : Int) - 1).toNat (by omega) (by omega)
  · by_cases hd : m.decision_ns = []
    · show _percentile _ (50/100) / 1000000 ≤ _percentile _ (95/100) / 1000000
        ∧ _percentile _ (95/100) / 1000000 ≤ _percentile _ (99/100) / 1000000
      simp [hd, List.insertionSort, _percentile]
    · have hne2 : (List.insertionSort (· ≤ ·) m.decision_ns).map (fun v : Int => (v : ℚ)) ≠ [] := by
        intro hcon
        apply hd
        have hlen0 : (List.insertionSort (· ≤ ·) m.decision_ns).length = 0 := by
          simpa using congrArg List.length hcon
        rw [List.length_insertionSort] at hlen0
        exact List.length_eq_zero.mp hlen0
      have hs2 := sorted_map_ratCast m.decision_ns
      have h1 := percentile_mono _ hne2 hs2 (50/100) (95/100) (by norm_num) (by norm_num) (by norm_num)
      have h2 := percentile_mono _ hne2 hs2 (95/100) (99/100) (by norm_num) (by norm_num) (by norm_num)
      constructor
      · show _percentile _ (50/100) / 1000000 ≤ _percentile _ (95/100) / 1000000
        exact (div_le_div_iff_of_pos_right (by norm_num)).mpr h1
      · show _percentile _ (95/100) / 1000000 ≤ _percentile _ (99/100) / 1000000
        exact (div_le_div_iff_of_pos_right (by norm_num)).mpr h2

/-- C7 witness: the percentile properties at the concrete sorted sequence
`[1, 2]` and the empty metrics accumulator. -/
theorem C7_percentile_witness :
    ([1, 2] ≠ ([] : List ℚ))
    ∧ _percentile [] (1/2) = 0
    ∧ _percentile [1, 2] 0 ∈ ([1, 2] : List ℚ)
    ∧ _percentile [1, 2] (50/100) ≤ _percentile [1, 2] (95/100)
    ∧ Metrics.init.to_payload.latency_p50 ≤ Metrics.init.to_payload.latency_p95 := by
  have hne : ([1, 2] : List ℚ) ≠ [] := by simp
  have hs : ([1, 2] : List ℚ).Sorted (· ≤ ·) := by
    norm_num [List.sorted_cons]
  have h := C7_percentile [1, 2] hne hs Metrics.init
  exact ⟨hne, h.1 (1/2), h.2.1.1,
         h.2.2.2.1 (50/100) (95/100) (by norm_num) (by norm_num) (by norm_num),
         h.2.2.2.2.1⟩

end QLoop
